import Mathlib

/-!
Shallow embedding of `extra/find_largest_tags.py` from the awtfdb repository.

The script scans the `files` table of a read-only SQLite store, stats each
distinct local path once (memoised in `stat_map`), aggregates a mapping from
tag identity (`core_hash`) to the set of local paths carrying that tag
(`tagmap`, a Python dict of sets, insertion-ordered on keys), then ranks the
tags either by total aggregate size descending (default mode) or — when the
`SORT_BY_COUNT_WITH_MIN_GB` environment variable is a non-empty string — by
filtering to tags whose total size is at least `int(env) * 1024**3` bytes and
sorting the survivors by file count ascending.  The ranked key list is
truncated with the Python slice `[:limit]` where `limit = int(sys.argv[1])`
(default 50 when the argument is absent), and one report line is printed per
surviving tag.

Python dicts preserve insertion order, so both `stat_map` and `tagmap` are
modelled as association lists in insertion order; the per-tag path set is
modelled as a duplicate-free list in insertion order (the script only takes
`len` and `sum` of it, so order is unobservable, but keeping the order makes
the model deterministic like the original).  Python's `sorted` is a stable
sort; `reverse=True` yields a stable descending sort (CPython reverses the
list before and after an ascending stable sort, which preserves the original
relative order of ties).  A stable sort's output on a total preorder is
uniquely determined by the input, so `sorted` is modelled with
`List.insertionSort` on the non-strict key comparison (ascending on
`fileCount` in floor mode, descending on `totalSize` in default mode), for
which Mathlib proves permutation, sortedness and stability.

Fallible points of the script are modelled explicitly:
* `int(sys.argv[1])` raises `ValueError` on a non-integer argument (only
  `IndexError` is caught) — modelled as `RunError.configInvalidLimit`;
* `Path(p).stat()` raises for a missing path — `RunError.pathUnavailable p`;
* `int(SORT_BY_COUNT_WITH_MIN_GB)` inside the filter lambda raises on a
  malformed value, but only when the lambda is actually invoked, i.e. only
  when at least one tag key exists — `RunError.configInvalidFloor`.
-/

namespace FindLargestTags

/-- Accumulate a run of decimal digits; fail on the first non-digit. -/
def readDigits : List Char → Nat → Option Nat
  | [], acc => some acc
  | c :: cs, acc =>
    if c.isDigit then readDigits cs (acc * 10 + (c.toNat - 48)) else none

/-- Model of Python `int(s)` on a string: an optional sign followed by at
least one decimal digit; anything else raises `ValueError`, modelled as
`none`. -/
def pyInt (s : String) : Option Int :=
  match s.toList with
  | [] => none
  | '-' :: [] => none
  | '-' :: c :: cs => (readDigits (c :: cs) 0).map (fun v => -(v : Int))
  | '+' :: [] => none
  | '+' :: c :: cs => (readDigits (c :: cs) 0).map (fun v => (v : Int))
  | cs => (readDigits cs 0).map (fun v => (v : Int))

/-- Python truthiness of `os.environ.get(...)`: `None` and the empty string
are falsy, every other string is truthy. -/
def truthy : Option String → Bool
  | none => false
  | some s => !s.isEmpty

/-- The read-only store contract: the full `files` scan (rows of
`(file_hash, local_path)` in query order), the per-file tag query
(`tag_files` joined with `hashes`, in query order), and the display-text
lookup on `tag_names`. -/
structure Store where
  files : List (String × String)
  tagsOf : String → List String
  tagText : String → String

/-- The filesystem `stat(path).st_size` capability; `none` models a path
that can no longer be stat-ed. -/
abbrev FileSys := String → Option Nat

/-- Errors a run can terminate with. -/
inductive RunError where
  | configInvalidLimit : RunError
  | pathUnavailable : String → RunError
  | configInvalidFloor : RunError
deriving DecidableEq, Repr

/-- In-memory state built by the scan loop of `main`: the memoised
`stat_map` (association list in insertion order), the trace of filesystem
stat calls actually performed (in order), and `tagmap` (association list in
key-insertion order, each value a duplicate-free path list in insertion
order). -/
structure ScanState where
  statMap : List (String × Nat)
  stats : List String
  tagmap : List (String × List String)
deriving DecidableEq, Repr

/-- The empty state at the start of the scan. -/
def ScanState.empty : ScanState :=
  ⟨[], [], []⟩

/-- Model of `tagmap[t].add(p)` resp. `tagmap[t] = {p}`: insert path `p` into tag
`t`'s path set, creating the entry at the end of the dict when absent and
skipping the insertion when `p` is already present. -/
def insertTag (p t : String) : List (String × List String) → List (String × List String)
  | [] => [(t, [p])]
  | (t', ps) :: rest =>
    if t' = t then
      (t', if p ∈ ps then ps else ps ++ [p]) :: rest
    else
      (t', ps) :: insertTag p t rest

/-- The inner `for row in tcur` loop: insert `p` under every tag returned
for the current file row. -/
def insertTags (p : String) (tm : List (String × List String)) (tags : List String) :
    List (String × List String) :=
  tags.foldl (fun m t => insertTag p t m) tm

/-- The main scan loop over the `files` rows.  For each `(file_hash,
local_path)` row: stat the path unless it is already memoised (failing
fatally when the stat fails, reporting the stats performed so far), then
insert the path under each of the file's tags.  -/
def scanRows (fs : FileSys) (tagsOf : String → List String) :
    List (String × String) → ScanState → Except (List String × String) ScanState
  | [], st => .ok st
  | (h, p) :: rest, st =>
    if (st.statMap.lookup p).isSome then
      scanRows fs tagsOf rest { st with tagmap := insertTags p st.tagmap (tagsOf h) }
    else
      match fs p with
      | none => .error (st.stats, p)
      | some sz =>
          scanRows fs tagsOf rest
            { statMap := st.statMap ++ [(p, sz)]
              stats := st.stats ++ [p]
              tagmap := insertTags p st.tagmap (tagsOf h) }

/-- Lookup `stat_map[p]` as used by `_sort_by_total_size` (always a hit in the
script; the default 0 is never exercised on paths present in `tagmap`). -/
def sizeOfPath (sm : List (String × Nat)) (p : String) : Nat :=
  (sm.lookup p).getD 0

/-- The path set recorded for a tag (empty for an unknown tag). -/
def pathsOf (tm : List (String × List String)) (t : String) : List String :=
  (tm.lookup t).getD []

/-- Model of `_sort_by_total_size`: the sum of the memoised sizes of the tag's
paths. -/
def totalSize (sm : List (String × Nat)) (tm : List (String × List String)) (t : String) : Nat :=
  ((pathsOf tm t).map (sizeOfPath sm)).sum

/-- Model of `_sort_by_count`: the number of distinct paths recorded for the tag. -/
def fileCount (tm : List (String × List String)) (t : String) : Nat :=
  (pathsOf tm t).length

/-- Model of `tagmap.keys()`: the tag identities in first-encounter (insertion)
order. -/
def aggKeys (tm : List (String × List String)) : List String :=
  tm.map Prod.fst

/-- The floor in bytes for a parsed gigabyte value `n`:
`n * 1024 * 1024 * 1024`. -/
def floorBytes (n : Int) : Int :=
  n * 1024 * 1024 * 1024

/-- The filter predicate of floor mode:
`_sort_by_total_size(k) >= int(env) * 1024**3`. -/
def passesFloor (sm : List (String × Nat)) (tm : List (String × List String))
    (n : Int) (k : String) : Bool :=
  floorBytes n ≤ (totalSize sm tm k : Int)

/-- The ranking step: `sorted(keys, key=_sorter, reverse=reverse)` with the
mode selection on `SORT_BY_COUNT_WITH_MIN_GB`.  In floor mode the
`int(env)` parse happens inside the filter lambda, so it is only evaluated
(and can only fail) when at least one tag key exists. -/
def rank (minGb : Option String) (sm : List (String × Nat))
    (tm : List (String × List String)) : Except RunError (List String) :=
  let keys := aggKeys tm
  if truthy minGb then
    if keys.isEmpty then
      .ok []
    else
      match pyInt (minGb.getD "") with
      | none => .error .configInvalidFloor
      | some n =>
          .ok ((keys.filter (passesFloor sm tm n)).insertionSort
            (fun a b => fileCount tm a ≤ fileCount tm b))
  else
    .ok (keys.insertionSort (fun a b => totalSize sm tm b ≤ totalSize sm tm a))

/-- The Python slice `l[:n]` for an integer `n`: the first `n` elements when
`n ≥ 0`, and all but the last `-n` elements when `n < 0`. -/
def pySlice {α : Type} (l : List α) (n : Int) : List α :=
  if 0 ≤ n then l.take n.toNat else l.take (l.length - (-n).toNat)

/-- Model of `limit = int(sys.argv[1])` with only `IndexError` caught: an absent
argument defaults to 50, a malformed one is fatal. -/
def parseLimit : Option String → Except RunError Int
  | none => .ok 50
  | some s =>
    match pyInt s with
    | none => .error .configInvalidLimit
    | some n => .ok n

/-- One report line on stdout: tag identity, display text, total bytes
(printed by the script as an unrounded GB float; the byte count determines
that float exactly), and distinct file count. -/
structure Entry where
  coreHash : String
  tagText : String
  usedBytes : Nat
  count : Nat
deriving DecidableEq, Repr

/-- The configuration inputs: `sys.argv[1]` and the
`SORT_BY_COUNT_WITH_MIN_GB` environment variable. -/
structure Env where
  argv1 : Option String
  minGb : Option String

/-- The observable outcome of a run: the stat-call trace, the final
memoised maps, the fully ranked key list `sorted_tag_keys`, the report
lines actually emitted on stdout, and the error the process died with (if
any).  On a fatal error nothing is emitted on stdout. -/
structure RunResult where
  stats : List String
  statMap : List (String × Nat)
  tagmap : List (String × List String)
  rankedKeys : List String
  output : List Entry
  error : Option RunError
deriving DecidableEq, Repr

/-- The report line printed for one ranked tag: identity, display text from
`tag_names`, recomputed total size and file count. -/
def reportEntry (store : Store) (sm : List (String × Nat))
    (tm : List (String × List String)) (t : String) : Entry :=
  ⟨t, store.tagText t, totalSize sm tm t, fileCount tm t⟩

/-- The whole of `main`: parse the limit, scan all rows (stat + aggregate),
select and apply the ranking policy, truncate with `[:limit]`, and resolve
display text for the surviving entries. -/
def run (e : Env) (store : Store) (fs : FileSys) : RunResult :=
  match parseLimit e.argv1 with
  | .error er => ⟨[], [], [], [], [], some er⟩
  | .ok limit =>
    match scanRows fs store.tagsOf store.files ScanState.empty with
    | .error (stats, p) => ⟨stats, [], [], [], [], some (.pathUnavailable p)⟩
    | .ok st =>
      match rank e.minGb st.statMap st.tagmap with
      | .error er => ⟨st.stats, st.statMap, st.tagmap, [], [], some er⟩
      | .ok ranked =>
          ⟨st.stats, st.statMap, st.tagmap, ranked,
            (pySlice ranked limit).map (reportEntry store st.statMap st.tagmap),
            none⟩

/-! ### Invariants of the scan loop -/

/-- The invariants the scan loop maintains on its state: the stat trace is
exactly the key column of `stat_map` in order, no path is memoised twice,
every memoised size is the filesystem's answer for that path, and every
per-tag path set is duplicate-free. -/
structure ScanInv (fs : FileSys) (st : ScanState) : Prop where
  stats_eq : st.stats = st.statMap.map Prod.fst
  keys_nodup : (st.statMap.map Prod.fst).Nodup
  sound : ∀ p sz, st.statMap.lookup p = some sz → fs p = some sz
  tags_nodup : ∀ pr ∈ st.tagmap, pr.2.Nodup

theorem scanInv_empty (fs : FileSys) : ScanInv fs ScanState.empty := by
  constructor <;> simp [ScanState.empty, List.lookup]

theorem insertTag_tags_nodup (p t : String) :
    ∀ tm : List (String × List String), (∀ pr ∈ tm, pr.2.Nodup) →
      ∀ pr ∈ insertTag p t tm, pr.2.Nodup := by
  intro tm
  induction tm with
  | nil =>
    intro _ pr hpr
    simp only [insertTag, List.mem_singleton] at hpr
    subst hpr
    simp
  | cons hd rest ih =>
    obtain ⟨t1, ps⟩ := hd
    intro hall pr hpr
    by_cases ht : t1 = t
    · simp only [insertTag, if_pos ht, List.mem_cons] at hpr
      rcases hpr with rfl | hpr
      · by_cases hp : p ∈ ps
        · simpa [hp] using hall (t1, ps) (by simp)
        · have hnd : ps.Nodup := by simpa using hall (t1, ps) (by simp)
          simpa [hp, ← List.concat_eq_append] using hnd.concat hp
      · exact hall pr (List.mem_cons_of_mem _ hpr)
    · simp only [insertTag, if_neg ht, List.mem_cons] at hpr
      rcases hpr with rfl | hpr
      · exact hall _ (by simp)
      · exact ih (fun q hq => hall q (List.mem_cons_of_mem _ hq)) pr hpr

theorem insertTags_tags_nodup (p : String) :
    ∀ (tags : List String) (tm : List (String × List String)),
      (∀ pr ∈ tm, pr.2.Nodup) → ∀ pr ∈ insertTags p tm tags, pr.2.Nodup := by
  intro tags
  induction tags with
  | nil => intro tm hall pr hpr; exact hall pr hpr
  | cons t rest ih =>
    intro tm hall pr hpr
    exact ih (insertTag p t tm) (insertTag_tags_nodup p t tm hall) pr hpr

theorem scanRows_ok_inv (fs : FileSys) (tagsOf : String → List String) :
    ∀ (rows : List (String × String)) (st0 st : ScanState),
      scanRows fs tagsOf rows st0 = .ok st → ScanInv fs st0 → ScanInv fs st := by
  intro rows
  induction rows with
  | nil =>
    intro st0 st hscan hinv
    simp only [scanRows] at hscan
    cases hscan
    exact hinv
  | cons row rest ih =>
    obtain ⟨h, p⟩ := row
    intro st0 st hscan hinv
    simp only [scanRows] at hscan
    split at hscan
    · refine ih _ _ hscan ⟨hinv.stats_eq, hinv.keys_nodup, hinv.sound, ?_⟩
      exact insertTags_tags_nodup p (tagsOf h) st0.tagmap hinv.tags_nodup
    · rename_i hmiss
      match hfs : fs p with
      | none => rw [hfs] at hscan; cases hscan
      | some sz =>
        rw [hfs] at hscan
        refine ih _ _ hscan ?_
        have hpnot : p ∉ st0.statMap.map Prod.fst := by
          intro hmem
          apply hmiss
          rw [List.lookup_isSome_iff]
          obtain ⟨pr, hpr, hfst⟩ := List.mem_map.mp hmem
          exact ⟨pr, hpr, by simp [hfst]⟩
        constructor
        · simp [hinv.stats_eq, List.map_append]
        · simpa [List.concat_eq_append, List.map_append]
            using hinv.keys_nodup.concat hpnot
        · intro q sq hq
          rw [List.lookup_append] at hq
          match hq0 : st0.statMap.lookup q with
          | some v =>
            rw [hq0, Option.or_some] at hq
            exact hinv.sound q sq (by rw [hq0]; exact hq)
          | none =>
            rw [hq0, Option.none_or] at hq
            by_cases hqp : q = p
            · subst hqp
              simp [List.lookup] at hq
              rw [← hq]
              exact hfs
            · have hb : (q == p) = false := by simp [hqp]
              simp [List.lookup, hb] at hq
        · exact insertTags_tags_nodup p (tagsOf h) st0.tagmap hinv.tags_nodup

theorem scanRows_ok_keys (fs : FileSys) (tagsOf : String → List String) :
    ∀ (rows : List (String × String)) (st0 st : ScanState),
      scanRows fs tagsOf rows st0 = .ok st →
      ∀ q, q ∈ st.statMap.map Prod.fst ↔
        q ∈ st0.statMap.map Prod.fst ∨ q ∈ rows.map Prod.snd := by
  intro rows
  induction rows with
  | nil =>
    intro st0 st hscan q
    simp only [scanRows] at hscan
    cases hscan
    simp
  | cons row rest ih =>
    obtain ⟨h, p⟩ := row
    intro st0 st hscan q
    simp only [scanRows] at hscan
    split at hscan
    · rename_i hhit
      have hp : p ∈ st0.statMap.map Prod.fst := by
        rw [List.lookup_isSome_iff] at hhit
        obtain ⟨pr, hpr, hb⟩ := hhit
        exact List.mem_map.mpr ⟨pr, hpr, (eq_of_beq hb).symm⟩
      have := ih _ _ hscan q
      simp only [ScanState.tagmap] at this
      rw [this]
      simp only [List.map_cons, List.mem_cons]
      constructor
      · rintro (h1 | h2)
        · exact Or.inl h1
        · exact Or.inr (Or.inr h2)
      · rintro (h1 | rfl | h2)
        · exact Or.inl h1
        · exact Or.inl hp
        · exact Or.inr h2
    · match hfs : fs p with
      | none => rw [hfs] at hscan; cases hscan
      | some sz =>
        rw [hfs] at hscan
        have := ih _ _ hscan q
        rw [this]
        simp only [List.map_append, List.map_cons, List.mem_append,
          List.mem_cons, List.map_nil, List.not_mem_nil, or_false]
        tauto

theorem scanRows_error_of_bad (fs : FileSys) (tagsOf : String → List String) :
    ∀ (rows : List (String × String)) (st0 : ScanState),
      (∀ p sz, st0.statMap.lookup p = some sz → fs p = some sz) →
      (∃ r ∈ rows, fs r.2 = none) →
      ∃ stats p, scanRows fs tagsOf rows st0 = .error (stats, p) ∧ fs p = none := by
  intro rows
  induction rows with
  | nil =>
    intro st0 _ hbad
    simp at hbad
  | cons row rest ih =>
    obtain ⟨h, p⟩ := row
    intro st0 hsound hbad
    simp only [scanRows]
    by_cases hhit : (st0.statMap.lookup p).isSome
    · rw [if_pos hhit]
      have hpfs : fs p ≠ none := by
        obtain ⟨v, hv⟩ := Option.isSome_iff_exists.mp hhit
        rw [hsound p v hv]
        exact Option.some_ne_none v
      have hbad2 : ∃ r ∈ rest, fs r.2 = none := by
        rcases hbad with ⟨r, hr, hrn⟩
        rcases List.mem_cons.mp hr with rfl | hr2
        · exact absurd hrn hpfs
        · exact ⟨r, hr2, hrn⟩
      exact ih _ hsound hbad2
    · rw [if_neg hhit]
      match hfs : fs p with
      | none => exact ⟨st0.stats, p, rfl, hfs⟩
      | some sz =>
        have hbad2 : ∃ r ∈ rest, fs r.2 = none := by
          rcases hbad with ⟨r, hr, hrn⟩
          rcases List.mem_cons.mp hr with rfl | hr2
          · rw [hfs] at hrn; cases hrn
          · exact ⟨r, hr2, hrn⟩
        refine ih _ ?_ hbad2
        intro q sq hq
        rw [List.lookup_append] at hq
        match hq0 : st0.statMap.lookup q with
        | some v =>
          rw [hq0, Option.or_some] at hq
          exact hsound q sq (by rw [hq0]; exact hq)
        | none =>
          rw [hq0, Option.none_or] at hq
          by_cases hqp : q = p
          · subst hqp
            simp [List.lookup] at hq
            rw [← hq]
            exact hfs
          · have hb : (q == p) = false := by simp [hqp]
            simp [List.lookup, hb] at hq

/-! ### Unfolding equations for `run` -/

theorem run_limit_error (e : Env) (store : Store) (fs : FileSys) (er : RunError)
    (hlim : parseLimit e.argv1 = .error er) :
    run e store fs = ⟨[], [], [], [], [], some er⟩ := by
  unfold run
  rw [hlim]

theorem run_scan_error (e : Env) (store : Store) (fs : FileSys)
    (limit : Int) (stats : List String) (p : String)
    (hlim : parseLimit e.argv1 = .ok limit)
    (hscan : scanRows fs store.tagsOf store.files ScanState.empty = .error (stats, p)) :
    run e store fs = ⟨stats, [], [], [], [], some (.pathUnavailable p)⟩ := by
  unfold run
  rw [hlim, hscan]

theorem run_rank_error (e : Env) (store : Store) (fs : FileSys)
    (limit : Int) (st : ScanState) (er : RunError)
    (hlim : parseLimit e.argv1 = .ok limit)
    (hscan : scanRows fs store.tagsOf store.files ScanState.empty = .ok st)
    (hrank : rank e.minGb st.statMap st.tagmap = .error er) :
    run e store fs = ⟨st.stats, st.statMap, st.tagmap, [], [], some er⟩ := by
  unfold run
  simp only [hlim, hscan, hrank]

theorem run_ok_eq (e : Env) (store : Store) (fs : FileSys)
    (limit : Int) (st : ScanState) (ranked : List String)
    (hlim : parseLimit e.argv1 = .ok limit)
    (hscan : scanRows fs store.tagsOf store.files ScanState.empty = .ok st)
    (hrank : rank e.minGb st.statMap st.tagmap = .ok ranked) :
    run e store fs = ⟨st.stats, st.statMap, st.tagmap, ranked,
      (pySlice ranked limit).map (reportEntry store st.statMap st.tagmap), none⟩ := by
  unfold run
  simp only [hlim, hscan, hrank]

/-- A run that did not die decomposes into a successful limit parse, a
successful scan and a successful ranking. -/
theorem run_ok_cases (e : Env) (store : Store) (fs : FileSys)
    (hok : (run e store fs).error = none) :
    ∃ (limit : Int) (st : ScanState) (ranked : List String),
      parseLimit e.argv1 = .ok limit ∧
      scanRows fs store.tagsOf store.files ScanState.empty = .ok st ∧
      rank e.minGb st.statMap st.tagmap = .ok ranked ∧
      run e store fs = ⟨st.stats, st.statMap, st.tagmap, ranked,
        (pySlice ranked limit).map (reportEntry store st.statMap st.tagmap), none⟩ := by
  match hlim : parseLimit e.argv1 with
  | .error er =>
    rw [run_limit_error e store fs er hlim] at hok
    cases hok
  | .ok limit =>
    match hscan : scanRows fs store.tagsOf store.files ScanState.empty with
    | .error (stats, p) =>
      rw [run_scan_error e store fs limit stats p hlim hscan] at hok
      cases hok
    | .ok st =>
      match hrank : rank e.minGb st.statMap st.tagmap with
      | .error er =>
        rw [run_rank_error e store fs limit st er hlim hscan hrank] at hok
        cases hok
      | .ok ranked =>
        exact ⟨limit, st, ranked, rfl, rfl, hrank,
          run_ok_eq e store fs limit st ranked hlim hscan hrank⟩

/-! ### Ranking-mode equations and slice facts -/

theorem rank_default (minGb : Option String) (sm : List (String × Nat))
    (tm : List (String × List String)) (h : truthy minGb = false) :
    rank minGb sm tm = .ok ((aggKeys tm).insertionSort
      (fun a b => totalSize sm tm b ≤ totalSize sm tm a)) := by
  unfold rank
  simp [h]

theorem rank_floor_ok (minGb : Option String) (sm : List (String × Nat))
    (tm : List (String × List String)) (n : Int)
    (ht : truthy minGb = true) (hn : pyInt (minGb.getD "") = some n) :
    rank minGb sm tm = .ok (((aggKeys tm).filter (passesFloor sm tm n)).insertionSort
      (fun a b => fileCount tm a ≤ fileCount tm b)) := by
  unfold rank
  simp only [ht, if_true]
  by_cases hk : (aggKeys tm).isEmpty
  · rw [if_pos hk]
    have hkeys : aggKeys tm = [] := List.isEmpty_iff.mp hk
    simp [hkeys]
  · rw [if_neg hk, hn]

theorem rank_floor_error (minGb : Option String) (sm : List (String × Nat))
    (tm : List (String × List String))
    (ht : truthy minGb = true) (hne : aggKeys tm ≠ [])
    (hn : pyInt (minGb.getD "") = none) :
    rank minGb sm tm = .error .configInvalidFloor := by
  unfold rank
  simp only [ht, if_true]
  rw [if_neg (by simpa [List.isEmpty_iff] using hne), hn]

theorem pySlice_nonneg {α : Type} (l : List α) (n : Int) (h : 0 ≤ n) :
    pySlice l n = l.take n.toNat := by
  unfold pySlice
  rw [if_pos h]

theorem pySlice_neg {α : Type} (l : List α) (n : Int) (h : n < 0) :
    pySlice l n = l.take (l.length - (-n).toNat) := by
  unfold pySlice
  rw [if_neg (not_le.mpr h)]

theorem pySlice_sublist {α : Type} (l : List α) (n : Int) : List.Sublist (pySlice l n) l := by
  unfold pySlice
  split
  · exact List.take_sublist _ _
  · exact List.take_sublist _ _

/-! ### Claim theorems -/

/-- C2: in default mode (the minimum-gigabyte flag unset, i.e. absent or
empty), every aggregated tag appears in the ranking — no filtering — and the
ranking (hence also the emitted output, which is a prefix of it) is ordered
by total aggregate size descending: each adjacent pair satisfies
`totalSize(entry[i]) ≥ totalSize(entry[i+1])`. -/
theorem claim_c2_default_mode (e : Env) (store : Store) (fs : FileSys)
    (R : RunResult) (hR : R = run e store fs)
    (hmode : truthy e.minGb = false)
    (hok : R.error = none) :
    (∀ k, k ∈ R.rankedKeys ↔ k ∈ aggKeys R.tagmap) ∧
    List.Chain' (fun a b => totalSize R.statMap R.tagmap b ≤ totalSize R.statMap R.tagmap a)
      R.rankedKeys ∧
    List.Chain' (fun x y => y.usedBytes ≤ x.usedBytes) R.output := by
  subst hR
  obtain ⟨limit, st, ranked, hlim, hscan, hrank, hrun⟩ := run_ok_cases e store fs hok
  rw [rank_default e.minGb st.statMap st.tagmap hmode] at hrank
  injection hrank with hr
  have hrk : (run e store fs).rankedKeys = ranked := by rw [hrun]
  have hsm : (run e store fs).statMap = st.statMap := by rw [hrun]
  have htm : (run e store fs).tagmap = st.tagmap := by rw [hrun]
  have hout : (run e store fs).output =
      (pySlice ranked limit).map (reportEntry store st.statMap st.tagmap) := by rw [hrun]
  rw [hrk, hsm, htm, hout]
  haveI : IsTotal String (fun a b => totalSize st.statMap st.tagmap b ≤
      totalSize st.statMap st.tagmap a) := ⟨fun _ _ => Nat.le_total _ _⟩
  haveI : IsTrans String (fun a b => totalSize st.statMap st.tagmap b ≤
      totalSize st.statMap st.tagmap a) := ⟨fun _ _ _ hab hbc => Nat.le_trans hbc hab⟩
  have hsorted : List.Pairwise (fun a b => totalSize st.statMap st.tagmap b ≤
      totalSize st.statMap st.tagmap a) ranked := by
    rw [← hr]
    exact List.sorted_insertionSort _ (aggKeys st.tagmap)
  refine ⟨?_, hsorted.chain', ?_⟩
  · intro k
    rw [← hr]
    exact List.mem_insertionSort _
  · rw [List.chain'_map]
    have hslice : List.Pairwise (fun a b => totalSize st.statMap st.tagmap b ≤
        totalSize st.statMap st.tagmap a) (pySlice ranked limit) :=
      hsorted.sublist (pySlice_sublist ranked limit)
    exact hslice.chain'

/-- Witness for C2 on the spec's end-to-end scenario: files `A ↦ "pa"`
(100 bytes) and `B ↦ "pb"` (200 bytes), tag `T1` on both, `T2` on `A`
only; `T1` (300 bytes) ranks before `T2` (100 bytes). -/
theorem claim_c2_witness :
    (∀ k, k ∈ ["T1", "T2"] ↔ k ∈ aggKeys [("T1", ["pa", "pb"]), ("T2", ["pa"])]) ∧
    List.Chain' (fun a b =>
      totalSize [("pa", 100), ("pb", 200)] [("T1", ["pa", "pb"]), ("T2", ["pa"])] b ≤
      totalSize [("pa", 100), ("pb", 200)] [("T1", ["pa", "pb"]), ("T2", ["pa"])] a)
      ["T1", "T2"] ∧
    List.Chain' (fun x y : Entry => y.usedBytes ≤ x.usedBytes)
      ([⟨"T1", "T1", 300, 2⟩, ⟨"T2", "T2", 100, 1⟩] : List Entry) :=
  claim_c2_default_mode
    ⟨none, none⟩
    ⟨[("A", "pa"), ("B", "pb")],
      fun h => if h = "A" then ["T1", "T2"] else if h = "B" then ["T1"] else [],
      fun t => t⟩
    (fun p => if p = "pa" then some 100 else if p = "pb" then some 200 else none)
    ⟨["pa", "pb"], [("pa", 100), ("pb", 200)], [("T1", ["pa", "pb"]), ("T2", ["pa"])],
      ["T1", "T2"], [⟨"T1", "T1", 300, 2⟩, ⟨"T2", "T2", 100, 1⟩], none⟩
    (by decide) (by decide) (by decide)

/-- C1: in floor mode (`SORT_BY_COUNT_WITH_MIN_GB` a non-empty string
parsing to `n`), the ranked key list contains exactly the tags whose total
aggregate size is at least `n * 1024³` bytes, ordered by distinct file
count ascending (and so is the emitted output, a prefix of it); with
`n = 0` every aggregated tag passes the filter. -/
theorem claim_c1_floor_mode (e : Env) (store : Store) (fs : FileSys)
    (s : String) (n : Int)
    (R : RunResult) (hR : R = run e store fs)
    (hmg : e.minGb = some s) (hs : s ≠ "") (hparse : pyInt s = some n)
    (hok : R.error = none) :
    (∀ k, k ∈ R.rankedKeys ↔
      k ∈ aggKeys R.tagmap ∧ floorBytes n ≤ (totalSize R.statMap R.tagmap k : Int)) ∧
    List.Chain' (fun a b => fileCount R.tagmap a ≤ fileCount R.tagmap b) R.rankedKeys ∧
    List.Chain' (fun x y : Entry => x.count ≤ y.count) R.output ∧
    (n = 0 → ∀ k ∈ aggKeys R.tagmap, k ∈ R.rankedKeys) := by
  subst hR
  obtain ⟨limit, st, ranked, hlim, hscan, hrank, hrun⟩ := run_ok_cases e store fs hok
  have ht : truthy e.minGb = true := by
    rw [hmg]
    simp only [truthy, Bool.not_eq_true']
    rw [← Bool.not_eq_true, String.isEmpty_iff]
    exact hs
  have hparse2 : pyInt (e.minGb.getD "") = some n := by
    rw [hmg]
    exact hparse
  rw [rank_floor_ok e.minGb st.statMap st.tagmap n ht hparse2] at hrank
  injection hrank with hr
  have hrk : (run e store fs).rankedKeys = ranked := by rw [hrun]
  have hsm : (run e store fs).statMap = st.statMap := by rw [hrun]
  have htm : (run e store fs).tagmap = st.tagmap := by rw [hrun]
  have hout : (run e store fs).output =
      (pySlice ranked limit).map (reportEntry store st.statMap st.tagmap) := by rw [hrun]
  rw [hrk, hsm, htm, hout]
  haveI : IsTotal String (fun a b => fileCount st.tagmap a ≤ fileCount st.tagmap b) :=
    ⟨fun _ _ => Nat.le_total _ _⟩
  haveI : IsTrans String (fun a b => fileCount st.tagmap a ≤ fileCount st.tagmap b) :=
    ⟨fun _ _ _ hab hbc => Nat.le_trans hab hbc⟩
  have hmem : ∀ k, k ∈ ranked ↔
      k ∈ aggKeys st.tagmap ∧ floorBytes n ≤ (totalSize st.statMap st.tagmap k : Int) := by
    intro k
    rw [← hr, List.mem_insertionSort _, List.mem_filter]
    simp [passesFloor]
  have hsorted : List.Pairwise (fun a b => fileCount st.tagmap a ≤ fileCount st.tagmap b)
      ranked := by
    rw [← hr]
    exact List.sorted_insertionSort _ _
  refine ⟨hmem, hsorted.chain', ?_, ?_⟩
  · rw [List.chain'_map]
    exact (hsorted.sublist (pySlice_sublist ranked limit)).chain'
  · intro hn0 k hk
    rw [hmem k]
    refine ⟨hk, ?_⟩
    rw [hn0]
    simp only [floorBytes, Int.zero_mul]
    exact Int.natCast_nonneg (totalSize st.statMap st.tagmap k)

/-- Witness for C1 on the spec's floor-mode scenario: same store as the C2
witness, floor string `"0"`; both tags pass and `T2` (count 1) precedes
`T1` (count 2). -/
theorem claim_c1_witness :
    (∀ k, k ∈ ["T2", "T1"] ↔
      k ∈ aggKeys [("T1", ["pa", "pb"]), ("T2", ["pa"])] ∧
      floorBytes 0 ≤
        (totalSize [("pa", 100), ("pb", 200)] [("T1", ["pa", "pb"]), ("T2", ["pa"])] k : Int)) ∧
    List.Chain' (fun a b =>
      fileCount [("T1", ["pa", "pb"]), ("T2", ["pa"])] a ≤
      fileCount [("T1", ["pa", "pb"]), ("T2", ["pa"])] b) ["T2", "T1"] ∧
    List.Chain' (fun x y : Entry => x.count ≤ y.count)
      ([⟨"T2", "T2", 100, 1⟩, ⟨"T1", "T1", 300, 2⟩] : List Entry) ∧
    ((0 : Int) = 0 → ∀ k ∈ aggKeys [("T1", ["pa", "pb"]), ("T2", ["pa"])],
      k ∈ ["T2", "T1"]) :=
  claim_c1_floor_mode
    ⟨none, some "0"⟩
    ⟨[("A", "pa"), ("B", "pb")],
      fun h => if h = "A" then ["T1", "T2"] else if h = "B" then ["T1"] else [],
      fun t => t⟩
    (fun p => if p = "pa" then some 100 else if p = "pb" then some 200 else none)
    "0" 0
    ⟨["pa", "pb"], [("pa", 100), ("pb", 200)], [("T1", ["pa", "pb"]), ("T2", ["pa"])],
      ["T2", "T1"], [⟨"T2", "T2", 100, 1⟩, ⟨"T1", "T1", 300, 2⟩], none⟩
    (by decide) (by decide) (by decide) (by decide) (by decide)

/-- C3: when some file row's path cannot be stat-ed, the run dies with
`PathUnavailable` (for a path the filesystem indeed cannot stat) and emits
no report line: the output and the ranked key list are both empty. -/
theorem claim_c3_missing_path (e : Env) (store : Store) (fs : FileSys) (limit : Int)
    (R : RunResult) (hR : R = run e store fs)
    (hlim : parseLimit e.argv1 = .ok limit)
    (hbad : ∃ r ∈ store.files, fs r.2 = none) :
    (∃ p, R.error = some (.pathUnavailable p) ∧ fs p = none) ∧
    R.output = [] ∧
    R.rankedKeys = [] := by
  subst hR
  obtain ⟨stats, p, hscan, hp⟩ := scanRows_error_of_bad fs store.tagsOf store.files
    ScanState.empty (by intro q sq h; simp [ScanState.empty, List.lookup] at h) hbad
  rw [run_scan_error e store fs limit stats p hlim hscan]
  exact ⟨⟨p, rfl, hp⟩, rfl, rfl⟩

/-- Witness for C3: a store whose single row references path `"pa"`, which
the filesystem can no longer stat. -/
theorem claim_c3_witness :
    (∃ p, (⟨[], [], [], [], [], some (.pathUnavailable "pa")⟩ : RunResult).error =
        some (.pathUnavailable p) ∧ (fun _ => (none : Option Nat)) p = none) ∧
    (⟨[], [], [], [], [], some (.pathUnavailable "pa")⟩ : RunResult).output = [] ∧
    (⟨[], [], [], [], [], some (.pathUnavailable "pa")⟩ : RunResult).rankedKeys = [] :=
  claim_c3_missing_path
    ⟨none, none⟩
    ⟨[("h", "pa")], fun _ => ["t"], fun _ => "T"⟩
    (fun _ => none)
    50
    ⟨[], [], [], [], [], some (.pathUnavailable "pa")⟩
    (by decide) rfl ⟨("h", "pa"), by decide, rfl⟩

/-- C5: every distinct path appearing in the file rows is stat-ed exactly
once per successful run (the stat trace is duplicate-free and covers
exactly the row paths), the trace is exactly the cache's key column in
insertion order (so no entry is ever overwritten or removed), and every
cached size is the filesystem's answer for that path. -/
theorem claim_c5_stat_cache (e : Env) (store : Store) (fs : FileSys)
    (R : RunResult) (hR : R = run e store fs)
    (hok : R.error = none) :
    R.stats.Nodup ∧
    R.stats = R.statMap.map Prod.fst ∧
    (∀ p, p ∈ R.stats ↔ p ∈ store.files.map Prod.snd) ∧
    (∀ p sz, R.statMap.lookup p = some sz → fs p = some sz) := by
  subst hR
  obtain ⟨limit, st, ranked, hlim, hscan, hrank, hrun⟩ := run_ok_cases e store fs hok
  have hinv := scanRows_ok_inv fs store.tagsOf store.files ScanState.empty st hscan
    (scanInv_empty fs)
  have hkeys := scanRows_ok_keys fs store.tagsOf store.files ScanState.empty st hscan
  have h1 : (run e store fs).stats = st.stats := by rw [hrun]
  have h2 : (run e store fs).statMap = st.statMap := by rw [hrun]
  rw [h1, h2]
  refine ⟨?_, hinv.stats_eq, ?_, hinv.sound⟩
  · rw [hinv.stats_eq]
    exact hinv.keys_nodup
  · intro p
    rw [hinv.stats_eq]
    have := hkeys p
    simpa [ScanState.empty] using this

/-- Witness for C5: path `"pa"` appears in two rows (hashes `A` and `B`)
but is stat-ed once; `"pb"` once. -/
theorem claim_c5_witness :
    (["pa", "pb"] : List String).Nodup ∧
    (["pa", "pb"] : List String) = [("pa", 100), ("pb", 200)].map Prod.fst ∧
    (∀ p, p ∈ (["pa", "pb"] : List String) ↔
      p ∈ [("A", "pa"), ("B", "pa"), ("B", "pb")].map Prod.snd) ∧
    (∀ p sz, [("pa", 100), ("pb", 200)].lookup p = some sz →
      (if p = "pa" then some 100 else if p = "pb" then some 200 else none) = some sz) :=
  claim_c5_stat_cache
    ⟨none, none⟩
    ⟨[("A", "pa"), ("B", "pa"), ("B", "pb")], fun _ => ["t"], fun t => t⟩
    (fun p => if p = "pa" then some 100 else if p = "pb" then some 200 else none)
    ⟨["pa", "pb"], [("pa", 100), ("pb", 200)], [("t", ["pa", "pb"])],
      ["t"], [⟨"t", "t", 300, 2⟩], none⟩
    (by decide) (by decide)

/-- C6: aggregation has set semantics — for every tag the recorded path
collection is duplicate-free, and the file count is the cardinality of the
tag's distinct path set. -/
theorem claim_c6_set_semantics (e : Env) (store : Store) (fs : FileSys)
    (R : RunResult) (hR : R = run e store fs)
    (hok : R.error = none) :
    ∀ t, (pathsOf R.tagmap t).Nodup ∧
      fileCount R.tagmap t = (pathsOf R.tagmap t).toFinset.card := by
  subst hR
  obtain ⟨limit, st, ranked, hlim, hscan, hrank, hrun⟩ := run_ok_cases e store fs hok
  have hinv := scanRows_ok_inv fs store.tagsOf store.files ScanState.empty st hscan
    (scanInv_empty fs)
  have htm : (run e store fs).tagmap = st.tagmap := by rw [hrun]
  rw [htm]
  intro t
  have hnd : (pathsOf st.tagmap t).Nodup := by
    unfold pathsOf
    match hl : st.tagmap.lookup t with
    | none => simp
    | some ps =>
      have hmem : (t, ps) ∈ st.tagmap := by
        rw [List.lookup_eq_some_iff] at hl
        obtain ⟨l₁, l₂, heq, -⟩ := hl
        rw [heq]
        exact List.mem_append.mpr (Or.inr (List.mem_cons_self _ _))
      simpa using hinv.tags_nodup (t, ps) hmem
  refine ⟨hnd, ?_⟩
  rw [List.toFinset_card_of_nodup hnd]
  rfl

/-- Witness for C6: path `"pa"` reaches tag `"t"` through two different
file-hash rows yet is recorded once, so the count is 2, not 3. -/
theorem claim_c6_witness :
    (pathsOf [("t", ["pa", "pb"])] "t").Nodup ∧
      fileCount [("t", ["pa", "pb"])] "t" = (pathsOf [("t", ["pa", "pb"])] "t").toFinset.card :=
  claim_c6_set_semantics
    ⟨none, none⟩
    ⟨[("A", "pa"), ("B", "pa"), ("B", "pb")], fun _ => ["t"], fun t => t⟩
    (fun p => if p = "pa" then some 100 else if p = "pb" then some 200 else none)
    ⟨["pa", "pb"], [("pa", 100), ("pb", 200)], [("t", ["pa", "pb"])],
      ["t"], [⟨"t", "t", 300, 2⟩], none⟩
    (by decide) (by decide) "t"

/-- Counterexample to C4: with a malformed floor value (`"abc"`), the run
does die with `ConfigInvalid`, but only after the engine has run — the
stat trace `["pa"]` shows that scanning/aggregation work happened before
the error was raised, contradicting "caught at the boundary before the
engine runs". -/
theorem claim_c4_counterexample :
    (run ⟨none, some "abc"⟩ ⟨[("h", "pa")], fun _ => ["t"], fun _ => "T"⟩
      (fun _ => some 5)).error = some RunError.configInvalidFloor ∧
    (run ⟨none, some "abc"⟩ ⟨[("h", "pa")], fun _ => ["t"], fun _ => "T"⟩
      (fun _ => some 5)).stats = ["pa"] := by
  decide

/-- C4 (amended): a non-integer limit argument is fatal at the boundary —
the run dies with `ConfigInvalid` before any stat, aggregation or output.
A malformed non-empty floor value is also fatal with no report output, but
it is raised only during ranking, after the whole scan/aggregation pass
has completed (and only when at least one tag key exists, because
`int(env)` sits inside the filter lambda). -/
theorem claim_c4_amended (e : Env) (store : Store) (fs : FileSys) :
    (∀ s, e.argv1 = some s → pyInt s = none →
      run e store fs = ⟨[], [], [], [], [], some .configInvalidLimit⟩) ∧
    (∀ s st, e.minGb = some s → s ≠ "" → pyInt s = none →
      (∃ l, parseLimit e.argv1 = Except.ok l) →
      scanRows fs store.tagsOf store.files ScanState.empty = .ok st →
      aggKeys st.tagmap ≠ [] →
      (run e store fs).error = some RunError.configInvalidFloor ∧
      (run e store fs).output = [] ∧
      (run e store fs).stats = st.stats) := by
  constructor
  · intro s hs hp
    apply run_limit_error
    simp only [hs, parseLimit, hp]
  · rintro s st hmg hne hp ⟨l, hl⟩ hscan hkeys
    have ht : truthy e.minGb = true := by
      rw [hmg]
      simp only [truthy, Bool.not_eq_true']
      rw [← Bool.not_eq_true, String.isEmpty_iff]
      exact hne
    have hrank := rank_floor_error e.minGb st.statMap st.tagmap ht hkeys
      (by rw [hmg]; exact hp)
    rw [run_rank_error e store fs l st _ hl hscan hrank]
    exact ⟨rfl, rfl, rfl⟩

/-- Witness for the amended C4: a malformed limit `"xy"` dies immediately
with nothing done; a malformed floor `"abc"` dies with `ConfigInvalid`
after the scan recorded the stat of `"pa"`, with no output. -/
theorem claim_c4_witness :
    run ⟨some "xy", none⟩ ⟨[("h", "pa")], fun _ => ["t"], fun _ => "T"⟩ (fun _ => some 5) =
      ⟨[], [], [], [], [], some .configInvalidLimit⟩ ∧
    ((run ⟨none, some "abc"⟩ ⟨[("h", "pa")], fun _ => ["t"], fun _ => "T"⟩
        (fun _ => some 5)).error = some RunError.configInvalidFloor ∧
      (run ⟨none, some "abc"⟩ ⟨[("h", "pa")], fun _ => ["t"], fun _ => "T"⟩
        (fun _ => some 5)).output = [] ∧
      (run ⟨none, some "abc"⟩ ⟨[("h", "pa")], fun _ => ["t"], fun _ => "T"⟩
        (fun _ => some 5)).stats = (⟨[("pa", 5)], ["pa"], [("t", ["pa"])]⟩ : ScanState).stats) :=
  ⟨(claim_c4_amended ⟨some "xy", none⟩
      ⟨[("h", "pa")], fun _ => ["t"], fun _ => "T"⟩ (fun _ => some 5)).1
      "xy" rfl (by decide),
    (claim_c4_amended ⟨none, some "abc"⟩
      ⟨[("h", "pa")], fun _ => ["t"], fun _ => "T"⟩ (fun _ => some 5)).2
      "abc" ⟨[("pa", 5)], ["pa"], [("t", ["pa"])]⟩ rfl (by decide) (by decide)
      ⟨50, rfl⟩ rfl (by decide)⟩

/-- Counterexample to C7: with limit `-1` and one eligible tag, the run
emits 0 entries, but `min(limit, count) = min(-1, 1) = -1 ≠ 0`, so the
output length is not `min(limit, number of eligible tags)`. -/
theorem claim_c7_counterexample :
    (run ⟨some "-1", none⟩ ⟨[("h", "pa")], fun _ => ["t"], fun _ => "T"⟩
      (fun _ => some 5)).rankedKeys.length = 1 ∧
    (run ⟨some "-1", none⟩ ⟨[("h", "pa")], fun _ => ["t"], fun _ => "T"⟩
      (fun _ => some 5)).output.length = 0 ∧
    ((run ⟨some "-1", none⟩ ⟨[("h", "pa")], fun _ => ["t"], fun _ => "T"⟩
      (fun _ => some 5)).output.length : Int) ≠
      min (-1 : Int) ((run ⟨some "-1", none⟩ ⟨[("h", "pa")], fun _ => ["t"], fun _ => "T"⟩
        (fun _ => some 5)).rankedKeys.length : Int) := by
  refine ⟨by decide, by decide, ?_⟩
  intro h
  simp only [show ((run ⟨some "-1", none⟩ ⟨[("h", "pa")], fun _ => ["t"], fun _ => "T"⟩
    (fun _ => some 5)).output.length : Int) = 0 from by decide,
    show ((run ⟨some "-1", none⟩ ⟨[("h", "pa")], fun _ => ["t"], fun _ => "T"⟩
    (fun _ => some 5)).rankedKeys.length : Int) = 1 from by decide] at h
  cases h

/-- C7 (amended): for a nonnegative limit `n` the output length is
`min(n, number of ranked tags)`; limit 0 yields empty output; a limit at
least the number of ranked tags yields all of them; an absent limit
argument defaults to 50.  (Negative limits follow Python slice semantics
instead — see C9.) -/
theorem claim_c7_amended (e : Env) (store : Store) (fs : FileSys) (n : Int)
    (R : RunResult) (hR : R = run e store fs)
    (hlim : parseLimit e.argv1 = .ok n) (hn : 0 ≤ n)
    (hok : R.error = none) :
    R.output.length = min n.toNat R.rankedKeys.length ∧
    (n = 0 → R.output = []) ∧
    (R.rankedKeys.length ≤ n.toNat → R.output.length = R.rankedKeys.length) ∧
    parseLimit none = Except.ok 50 := by
  subst hR
  obtain ⟨limit, st, ranked, hlim2, hscan, hrank, hrun⟩ := run_ok_cases e store fs hok
  rw [hlim] at hlim2
  injection hlim2 with hlimeq
  subst hlimeq
  have hrk : (run e store fs).rankedKeys = ranked := by rw [hrun]
  have hout : (run e store fs).output =
      (pySlice ranked n).map (reportEntry store st.statMap st.tagmap) := by rw [hrun]
  rw [hrk, hout, List.length_map, pySlice_nonneg ranked n hn, List.length_take]
  refine ⟨rfl, ?_, ?_, rfl⟩
  · intro h0
    subst h0
    simp [pySlice_nonneg]
  · intro hle
    exact Nat.min_eq_right hle

/-- Witness for the amended C7: limit `10` with two ranked tags emits both
entries. -/
theorem claim_c7_witness :
    (run ⟨some "10", none⟩
      ⟨[("A", "pa"), ("B", "pb")],
        fun h => if h = "A" then ["T1", "T2"] else if h = "B" then ["T1"] else [],
        fun t => t⟩
      (fun p => if p = "pa" then some 100 else if p = "pb" then some 200 else none)).output.length =
      min (10 : Int).toNat (run ⟨some "10", none⟩
      ⟨[("A", "pa"), ("B", "pb")],
        fun h => if h = "A" then ["T1", "T2"] else if h = "B" then ["T1"] else [],
        fun t => t⟩
      (fun p => if p = "pa" then some 100 else if p = "pb" then some 200 else none)).rankedKeys.length ∧
    ((10 : Int) = 0 → (run ⟨some "10", none⟩
      ⟨[("A", "pa"), ("B", "pb")],
        fun h => if h = "A" then ["T1", "T2"] else if h = "B" then ["T1"] else [],
        fun t => t⟩
      (fun p => if p = "pa" then some 100 else if p = "pb" then some 200 else none)).output = []) ∧
    ((run ⟨some "10", none⟩
      ⟨[("A", "pa"), ("B", "pb")],
        fun h => if h = "A" then ["T1", "T2"] else if h = "B" then ["T1"] else [],
        fun t => t⟩
      (fun p => if p = "pa" then some 100 else if p = "pb" then some 200 else none)).rankedKeys.length ≤
        (10 : Int).toNat →
      (run ⟨some "10", none⟩
      ⟨[("A", "pa"), ("B", "pb")],
        fun h => if h = "A" then ["T1", "T2"] else if h = "B" then ["T1"] else [],
        fun t => t⟩
      (fun p => if p = "pa" then some 100 else if p = "pb" then some 200 else none)).output.length =
      (run ⟨some "10", none⟩
      ⟨[("A", "pa"), ("B", "pb")],
        fun h => if h = "A" then ["T1", "T2"] else if h = "B" then ["T1"] else [],
        fun t => t⟩
      (fun p => if p = "pa" then some 100 else if p = "pb" then some 200 else none)).rankedKeys.length) ∧
    parseLimit none = Except.ok 50 :=
  claim_c7_amended
    ⟨some "10", none⟩
    ⟨[("A", "pa"), ("B", "pb")],
      fun h => if h = "A" then ["T1", "T2"] else if h = "B" then ["T1"] else [],
      fun t => t⟩
    (fun p => if p = "pa" then some 100 else if p = "pb" then some 200 else none)
    10 _ rfl rfl (by decide) (by decide)

/-- C8: the floor-mode flag is set exactly when the environment variable is
a non-empty string — absent and empty-string values select default mode
(rank all tags by total size descending), while the non-empty string `"0"`
selects floor mode with a floor of `0` bytes, through which every tag
passes, leaving a pure count-ascending ranking. -/
theorem claim_c8_truthiness :
    truthy none = false ∧
    truthy (some "") = false ∧
    truthy (some "0") = true ∧
    pyInt "0" = some 0 ∧
    floorBytes 0 = 0 ∧
    (∀ sm tm, rank none sm tm = .ok ((aggKeys tm).insertionSort
      (fun a b => totalSize sm tm b ≤ totalSize sm tm a))) ∧
    (∀ sm tm, rank (some "") sm tm = .ok ((aggKeys tm).insertionSort
      (fun a b => totalSize sm tm b ≤ totalSize sm tm a))) ∧
    (∀ sm tm, rank (some "0") sm tm = .ok ((aggKeys tm).insertionSort
      (fun a b => fileCount tm a ≤ fileCount tm b))) := by
  refine ⟨rfl, by decide, by decide, by decide, by decide, ?_, ?_, ?_⟩
  · intro sm tm
    exact rank_default none sm tm rfl
  · intro sm tm
    exact rank_default (some "") sm tm (by decide)
  · intro sm tm
    rw [rank_floor_ok (some "0") sm tm 0 (by decide) (by decide)]
    have hall : (aggKeys tm).filter (passesFloor sm tm 0) = aggKeys tm := by
      refine List.filter_eq_self.mpr (fun a _ => ?_)
      simp [passesFloor, floorBytes, Int.natCast_nonneg]
    rw [hall]

/-- C9: a negative limit `-k` (with `k > 0`) truncates via Python slice
semantics `[:-k]`: the run emits all ranked entries except the last `k`
(so the emitted length is `count - k`), empty when `k ≥ count`, and
non-empty — not `min(limit, count)` — when `k < count`. -/
theorem claim_c9_negative_limit (e : Env) (store : Store) (fs : FileSys) (k : Nat)
    (R : RunResult) (hR : R = run e store fs)
    (hk : 0 < k)
    (hlim : parseLimit e.argv1 = .ok (-(k : Int)))
    (hok : R.error = none) :
    R.output = (R.rankedKeys.take (R.rankedKeys.length - k)).map
      (reportEntry store R.statMap R.tagmap) ∧
    R.output.length = R.rankedKeys.length - k ∧
    (R.rankedKeys.length ≤ k → R.output = []) ∧
    (k < R.rankedKeys.length → R.output ≠ []) := by
  subst hR
  obtain ⟨limit, st, ranked, hlim2, hscan, hrank, hrun⟩ := run_ok_cases e store fs hok
  rw [hlim] at hlim2
  injection hlim2 with hlimeq
  subst hlimeq
  have hrk : (run e store fs).rankedKeys = ranked := by rw [hrun]
  have hsm : (run e store fs).statMap = st.statMap := by rw [hrun]
  have htm : (run e store fs).tagmap = st.tagmap := by rw [hrun]
  have hout : (run e store fs).output =
      (pySlice ranked (-(k : Int))).map (reportEntry store st.statMap st.tagmap) := by rw [hrun]
  have hneg : (-(k : Int)) < 0 := by omega
  have hslice : pySlice ranked (-(k : Int)) = ranked.take (ranked.length - k) := by
    rw [pySlice_neg ranked _ hneg]
    simp
  rw [hrk, hsm, htm, hout, hslice]
  refine ⟨rfl, ?_, ?_, ?_⟩
  · rw [List.length_map, List.length_take]
    exact Nat.min_eq_left (Nat.sub_le _ _)
  · intro hle
    rw [Nat.sub_eq_zero_of_le hle]
    simp
  · intro hlt
    have hpos : 0 < (ranked.take (ranked.length - k)).length := by
      rw [List.length_take]
      have : 0 < ranked.length - k := Nat.sub_pos_of_lt hlt
      omega
    intro hnil
    rw [List.map_eq_nil_iff] at hnil
    rw [hnil] at hpos
    simp at hpos

/-- Witness for C9: limit `-1` with two ranked tags emits exactly the first
ranked entry (`T1`, the larger tag) and drops the last one. -/
theorem claim_c9_witness :
    ([⟨"T1", "T1", 300, 2⟩] : List Entry) =
      ((["T1", "T2"] : List String).take ((["T1", "T2"] : List String).length - 1)).map
        (reportEntry
          ⟨[("A", "pa"), ("B", "pb")],
            fun h => if h = "A" then ["T1", "T2"] else if h = "B" then ["T1"] else [],
            fun t => t⟩
          [("pa", 100), ("pb", 200)] [("T1", ["pa", "pb"]), ("T2", ["pa"])]) ∧
    ([⟨"T1", "T1", 300, 2⟩] : List Entry).length = (["T1", "T2"] : List String).length - 1 ∧
    ((["T1", "T2"] : List String).length ≤ 1 → ([⟨"T1", "T1", 300, 2⟩] : List Entry) = []) ∧
    (1 < (["T1", "T2"] : List String).length → ([⟨"T1", "T1", 300, 2⟩] : List Entry) ≠ []) :=
  claim_c9_negative_limit
    ⟨some "-1", none⟩
    ⟨[("A", "pa"), ("B", "pb")],
      fun h => if h = "A" then ["T1", "T2"] else if h = "B" then ["T1"] else [],
      fun t => t⟩
    (fun p => if p = "pa" then some 100 else if p = "pb" then some 200 else none)
    1
    ⟨["pa", "pb"], [("pa", 100), ("pb", 200)], [("T1", ["pa", "pb"]), ("T2", ["pa"])],
      ["T1", "T2"], [⟨"T1", "T1", 300, 2⟩], none⟩
    (by decide) (by decide) rfl (by decide)

/-- C10: the ranking is deterministic and stable.  The whole pipeline is a
pure function of its inputs (two runs on identical inputs are literally the
same value), and ties in the ranking key preserve the order in which the
tags were first encountered while scanning the rows (`aggKeys`, the
insertion order of `tagmap`): in default mode for equal total sizes, in
floor mode for equal file counts among tags passing the filter. -/
theorem claim_c10_stable_deterministic (e : Env) (store : Store) (fs : FileSys)
    (R : RunResult) (hR : R = run e store fs)
    (hok : R.error = none) :
    (truthy e.minGb = false →
      ∀ a b, totalSize R.statMap R.tagmap a = totalSize R.statMap R.tagmap b →
        List.Sublist [a, b] (aggKeys R.tagmap) →
        List.Sublist [a, b] R.rankedKeys) ∧
    (∀ s n, e.minGb = some s → s ≠ "" → pyInt s = some n →
      ∀ a b, fileCount R.tagmap a = fileCount R.tagmap b →
        passesFloor R.statMap R.tagmap n a = true →
        passesFloor R.statMap R.tagmap n b = true →
        List.Sublist [a, b] (aggKeys R.tagmap) →
        List.Sublist [a, b] R.rankedKeys) := by
  subst hR
  obtain ⟨limit, st, ranked, hlim, hscan, hrank, hrun⟩ := run_ok_cases e store fs hok
  have hrk : (run e store fs).rankedKeys = ranked := by rw [hrun]
  have hsm : (run e store fs).statMap = st.statMap := by rw [hrun]
  have htm : (run e store fs).tagmap = st.tagmap := by rw [hrun]
  rw [hrk, hsm, htm]
  constructor
  · intro hmode a b heq hsub
    rw [rank_default e.minGb st.statMap st.tagmap hmode] at hrank
    injection hrank with hr
    rw [← hr]
    exact List.pair_sublist_insertionSort heq.ge hsub
  · intro s n hmg hne hp a b heq hpa hpb hsub
    have ht : truthy e.minGb = true := by
      rw [hmg]
      simp only [truthy, Bool.not_eq_true']
      rw [← Bool.not_eq_true, String.isEmpty_iff]
      exact hne
    rw [rank_floor_ok e.minGb st.statMap st.tagmap n ht (by rw [hmg]; exact hp)] at hrank
    injection hrank with hr
    rw [← hr]
    have hsubf : List.Sublist [a, b] ((aggKeys st.tagmap).filter
        (passesFloor st.statMap st.tagmap n)) := by
      have := List.Sublist.filter (passesFloor st.statMap st.tagmap n) hsub
      simpa [List.filter, hpa, hpb] using this
    exact List.pair_sublist_insertionSort heq.le hsubf

/-- Witness for C10: in the two-tag scenario the stability statement holds;
in particular in default mode two equal-size tags would keep first-seen
order. -/
theorem claim_c10_witness :
    (truthy (none : Option String) = false →
      ∀ a b, totalSize [("pa", 100), ("pb", 100)] [("T1", ["pa"]), ("T2", ["pb"])] a =
          totalSize [("pa", 100), ("pb", 100)] [("T1", ["pa"]), ("T2", ["pb"])] b →
        List.Sublist [a, b] (aggKeys [("T1", ["pa"]), ("T2", ["pb"])]) →
        List.Sublist [a, b] ["T1", "T2"]) ∧
    (∀ s n, (none : Option String) = some s → s ≠ "" → pyInt s = some n →
      ∀ a b, fileCount [("T1", ["pa"]), ("T2", ["pb"])] a =
          fileCount [("T1", ["pa"]), ("T2", ["pb"])] b →
        passesFloor [("pa", 100), ("pb", 100)] [("T1", ["pa"]), ("T2", ["pb"])] n a = true →
        passesFloor [("pa", 100), ("pb", 100)] [("T1", ["pa"]), ("T2", ["pb"])] n b = true →
        List.Sublist [a, b] (aggKeys [("T1", ["pa"]), ("T2", ["pb"])]) →
        List.Sublist [a, b] ["T1", "T2"]) :=
  claim_c10_stable_deterministic
    ⟨none, none⟩
    ⟨[("A", "pa"), ("B", "pb")],
      fun h => if h = "A" then ["T1"] else if h = "B" then ["T2"] else [],
      fun t => t⟩
    (fun p => if p = "pa" then some 100 else if p = "pb" then some 100 else none)
    ⟨["pa", "pb"], [("pa", 100), ("pb", 100)], [("T1", ["pa"]), ("T2", ["pb"])],
      ["T1", "T2"], [⟨"T1", "T1", 100, 1⟩, ⟨"T2", "T2", 100, 1⟩], none⟩
    (by decide) (by decide)

end FindLargestTags
